import Mathlib

set_option linter.unusedVariables false

/-!
Shallow embedding of the walnuts1018/external-dns provider plugins.

Sources embedded:
  - src/provider/cloudflaretunnel/util/util.go : OrderedMap (Add, Update,
    Remove, Get, Len). The Go map field `data` is embedded as a function
    String -> Option UnvalidatedIngressRule; the `keys` slice as a list.
    The Go delete-first-match-then-break loop over keys is List.erase.
  - src/provider/cloudflaretunnel/cloudflaretunnel.go : Records and
    ApplyChanges of the CloudFlareTunnelProvider. Vendor calls are
    embedded as oracle parameters; the list of mutating vendor calls
    actually issued is collected as a trace.
  - src/unnamed/part_000 : the OCI provider's ApplyChanges,
    newRecordOperation, newFilteredRecordOperations, operationsByZone.
    The iteration order of Go maps is abstracted as list order.

Definitions not in src/ (library code of the repository) are marked
"Modelled from the spec:" in their doc comments.
-/

/-- Embedding of cloudflare.OriginRequestConfig restricted to the fields this
repository sets (NoTLSVerify, Http2Origin are *bool in Go, hence Option Bool). -/
structure OriginRequestConfig where
  NoTLSVerify : Option Bool
  Http2Origin : Option Bool
  deriving DecidableEq, Repr

/-- Embedding of cloudflare.UnvalidatedIngressRule restricted to the fields
this repository reads or writes. The Go zero value is ⟨"", "", none⟩. -/
structure UnvalidatedIngressRule where
  Hostname : String
  Service : String
  OriginRequest : Option OriginRequestConfig
  deriving DecidableEq, Repr

instance : Inhabited UnvalidatedIngressRule := ⟨⟨"", "", none⟩⟩

/-- OrderedMap from src/provider/cloudflaretunnel/util/util.go: a Go map
(embedded as a lookup function) plus the insertion-order key slice. -/
structure OrderedMap where
  data : String → Option UnvalidatedIngressRule
  keys : List String

/-- NewOrderedMap from util.go (`cap` is only an allocation hint in Go). -/
def NewOrderedMap (cap : Nat) : OrderedMap :=
  { data := fun _ => none, keys := [] }

/-- OrderedMap.Add from util.go: store the value under s.Hostname; if the key
was absent append it to keys, otherwise remove its first occurrence from keys
(the Go for-loop with break) and re-append it at the end. -/
def OrderedMap.Add (n : OrderedMap) (s : UnvalidatedIngressRule) : OrderedMap :=
  match n.data s.Hostname with
  | none =>
    { data := fun k => if k = s.Hostname then some s else n.data k,
      keys := n.keys ++ [s.Hostname] }
  | some _ =>
    { data := fun k => if k = s.Hostname then some s else n.data k,
      keys := n.keys.erase s.Hostname ++ [s.Hostname] }

/-- OrderedMap.Update from util.go: if the key is present replace the stored
value only; if absent store it and append the key. -/
def OrderedMap.Update (n : OrderedMap) (s : UnvalidatedIngressRule) : OrderedMap :=
  match n.data s.Hostname with
  | some _ =>
    { data := fun k => if k = s.Hostname then some s else n.data k,
      keys := n.keys }
  | none =>
    { data := fun k => if k = s.Hostname then some s else n.data k,
      keys := n.keys ++ [s.Hostname] }

/-- OrderedMap.Remove from util.go: if the key is present delete the value and
remove the key's first occurrence from keys; no-op otherwise. -/
def OrderedMap.Remove (n : OrderedMap) (s : UnvalidatedIngressRule) : OrderedMap :=
  match n.data s.Hostname with
  | some _ =>
    { data := fun k => if k = s.Hostname then none else n.data k,
      keys := n.keys.erase s.Hostname }
  | none => n

/-- OrderedMap.Get from util.go: the values in key order (a fresh slice in
Go; a missing key would yield the Go zero value, hence getD default). -/
def OrderedMap.Get (n : OrderedMap) : List UnvalidatedIngressRule :=
  n.keys.map (fun k => (n.data k).getD default)

/-- OrderedMap.Len from util.go. -/
def OrderedMap.Len (n : OrderedMap) : Nat :=
  n.keys.length

/-- Internal well-formedness of an OrderedMap (holds for every map reachable
from NewOrderedMap): keys are distinct, the lookup succeeds exactly on keys,
and a stored rule's Hostname is its key. -/
def OrderedMap.Inv (n : OrderedMap) : Prop :=
  n.keys.Nodup ∧ (∀ k, (n.data k).isSome = true ↔ k ∈ n.keys) ∧
    (∀ k r, n.data k = some r → r.Hostname = k)

/-- Folding OrderedMap.Add over a list of rules, in order. -/
def addAll (m : OrderedMap) (rules : List UnvalidatedIngressRule) : OrderedMap :=
  rules.foldl (fun acc r => acc.Add r) m

/-- The rules of a sequence that survive later re-adds of the same hostname:
each distinct hostname appears once, at the position of its last occurrence,
carrying the value of its last occurrence. -/
def lastOccRules : List UnvalidatedIngressRule → List UnvalidatedIngressRule
  | [] => []
  | r :: t =>
    if (t.map UnvalidatedIngressRule.Hostname).contains r.Hostname then lastOccRules t
    else r :: lastOccRules t

theorem filter_comm_map {α β : Type} (f : α → β) (p : β → Bool) (q : α → Bool) :
    ∀ l : List α, (∀ a ∈ l, p (f a) = q a) → (l.map f).filter p = (l.filter q).map f := by
  intro l
  induction l with
  | nil => intro _; rfl
  | cons a t ih =>
    intro h
    have ha := h a (List.mem_cons_self a t)
    have ht : ∀ x ∈ t, p (f x) = q x := fun x hx => h x (List.mem_cons_of_mem a hx)
    by_cases hq : q a = true
    · simp [List.filter_cons, ha, hq, ih ht]
    · have : q a = false := by
        cases hqa : q a
        · rfl
        · exact absurd hqa hq
      simp [List.filter_cons, ha, this, ih ht]

theorem erase_eq_filter_of_nodup {α : Type} [DecidableEq α] (a : α) :
    ∀ l : List α, l.Nodup → l.erase a = l.filter (fun x => x ≠ a) := by
  intro l
  induction l with
  | nil => intro _; rfl
  | cons b t ih =>
    intro hnd
    have hb : b ∉ t := (List.nodup_cons.mp hnd).1
    have ht : t.Nodup := (List.nodup_cons.mp hnd).2
    by_cases hba : b = a
    · subst hba
      rw [List.erase_cons_head]
      have hstep : List.filter (fun x => x ≠ b) (b :: t) = List.filter (fun x => x ≠ b) t := by
        rw [List.filter_cons]
        simp
      rw [hstep]
      symm
      apply List.filter_eq_self.mpr
      intro x hx
      simp only [ne_eq, decide_eq_true_eq]
      exact fun hxb => hb (hxb ▸ hx)
    · rw [List.erase_cons_tail (by simp [hba])]
      rw [List.filter_cons]
      have hcond : decide (b ≠ a) = true := by simp [hba]
      rw [hcond, if_pos rfl, ih ht]

theorem contains_iff_mem_str {l : List String} {x : String} : l.contains x = true ↔ x ∈ l :=
  List.elem_iff

theorem inv_new (cap : Nat) : (NewOrderedMap cap).Inv := by
  refine ⟨List.nodup_nil, ?_, ?_⟩
  · intro k
    simp [NewOrderedMap]
  · intro k r h
    simp [NewOrderedMap] at h

theorem inv_add {m : OrderedMap} (hInv : m.Inv) (s : UnvalidatedIngressRule) :
    (m.Add s).Inv := by
  obtain ⟨hnd, hdom, hhost⟩ := hInv
  cases hds : m.data s.Hostname with
  | none =>
    have hnm : s.Hostname ∉ m.keys := by
      intro hmem
      have := (hdom s.Hostname).mpr hmem
      rw [hds] at this
      simp at this
    refine ⟨?_, ?_, ?_⟩
    · simp only [OrderedMap.Add, hds]
      rw [List.nodup_append]
      refine ⟨hnd, List.nodup_singleton _, ?_⟩
      intro x hx hx1
      rw [List.mem_singleton] at hx1
      exact hnm (hx1 ▸ hx)
    · intro k
      simp only [OrderedMap.Add, hds]
      by_cases hk : k = s.Hostname
      · subst hk
        simp
      · simp only [if_neg hk, List.mem_append, List.mem_singleton, hk, or_false]
        exact hdom k
    · intro k r
      simp only [OrderedMap.Add, hds]
      by_cases hk : k = s.Hostname
      · subst hk
        intro h
        have hsr : s = r := by simpa using h
        rw [← hsr]
      · simp only [if_neg hk]
        exact hhost k r
  | some v =>
    have herase : m.keys.erase s.Hostname = m.keys.filter (fun x => x ≠ s.Hostname) :=
      erase_eq_filter_of_nodup _ _ hnd
    refine ⟨?_, ?_, ?_⟩
    · simp only [OrderedMap.Add, hds]
      rw [List.nodup_append]
      refine ⟨hnd.erase _, List.nodup_singleton _, ?_⟩
      intro x hx hx1
      rw [List.mem_singleton] at hx1
      subst hx1
      rw [herase] at hx
      have := (List.mem_filter.mp hx).2
      simp at this
    · intro k
      simp only [OrderedMap.Add, hds]
      by_cases hk : k = s.Hostname
      · subst hk
        simp
      · simp only [if_neg hk, List.mem_append, List.mem_singleton, hk, or_false]
        rw [List.mem_erase_of_ne hk]
        exact hdom k
    · intro k r
      simp only [OrderedMap.Add, hds]
      by_cases hk : k = s.Hostname
      · subst hk
        intro h
        have hsr : s = r := by simpa using h
        rw [← hsr]
      · simp only [if_neg hk]
        exact hhost k r

theorem get_hostname_of_mem {m : OrderedMap} (hInv : m.Inv) :
    ∀ k ∈ m.keys, ((m.data k).getD default).Hostname = k := by
  obtain ⟨hnd, hdom, hhost⟩ := hInv
  intro k hk
  have hsome := (hdom k).mpr hk
  cases hdk : m.data k with
  | none =>
    rw [hdk] at hsome
    simp at hsome
  | some r =>
    simpa using hhost k r hdk

theorem get_add {m : OrderedMap} (hInv : m.Inv) (s : UnvalidatedIngressRule) :
    (m.Add s).Get = m.Get.filter (fun r => r.Hostname ≠ s.Hostname) ++ [s] := by
  obtain ⟨hnd, hdom, hhost⟩ := hInv
  have hhostk := get_hostname_of_mem ⟨hnd, hdom, hhost⟩
  have hfilter : m.Get.filter (fun r => r.Hostname ≠ s.Hostname) =
      (m.keys.filter (fun k => k ≠ s.Hostname)).map (fun k => (m.data k).getD default) := by
    unfold OrderedMap.Get
    apply filter_comm_map
    intro k hk
    have hgoal : ((m.data k).getD default).Hostname = k := hhostk k hk
    simp [hgoal]
  rw [hfilter]
  cases hds : m.data s.Hostname with
  | none =>
    have hnm : s.Hostname ∉ m.keys := by
      intro hmem
      have := (hdom s.Hostname).mpr hmem
      rw [hds] at this
      simp at this
    have hkeysfilter : m.keys.filter (fun k => k ≠ s.Hostname) = m.keys := by
      apply List.filter_eq_self.mpr
      intro k hk
      simp only [ne_eq, decide_eq_true_eq]
      exact fun he => hnm (he ▸ hk)
    rw [hkeysfilter]
    simp only [OrderedMap.Add, hds, OrderedMap.Get, List.map_append, List.map_singleton]
    congr 1
    · apply List.map_congr_left
      intro k hk
      have hk2 : ¬ k = s.Hostname := fun he => hnm (he ▸ hk)
      simp [hk2]
  | some v =>
    have herase : m.keys.erase s.Hostname = m.keys.filter (fun x => x ≠ s.Hostname) :=
      erase_eq_filter_of_nodup _ _ hnd
    simp only [OrderedMap.Add, hds, OrderedMap.Get, herase, List.map_append, List.map_singleton]
    congr 1
    · apply List.map_congr_left
      intro k hk
      have hk2 : ¬ k = s.Hostname := by
        have := (List.mem_filter.mp hk).2
        simpa using this
      simp [hk2]

theorem addAll_get : ∀ (rules : List UnvalidatedIngressRule) (m : OrderedMap), m.Inv →
    (addAll m rules).Get =
      m.Get.filter
        (fun r => !((rules.map UnvalidatedIngressRule.Hostname).contains r.Hostname)) ++
      lastOccRules rules := by
  intro rules
  induction rules with
  | nil =>
    intro m hInv
    simp [addAll, lastOccRules]
  | cons r t ih =>
    intro m hInv
    have hstep : addAll m (r :: t) = addAll (m.Add r) t := by
      simp [addAll]
    rw [hstep, ih (m.Add r) (inv_add hInv r), get_add hInv r]
    rw [List.filter_append]
    cases hc : (t.map UnvalidatedIngressRule.Hostname).contains r.Hostname with
    | true =>
      have hlast : lastOccRules (r :: t) = lastOccRules t := by
        simp only [lastOccRules, hc, if_true]
      have hsingle : ([r].filter
          (fun x => !((t.map UnvalidatedIngressRule.Hostname).contains x.Hostname))) = [] := by
        simp only [List.filter_cons, hc, Bool.not_true, List.filter_nil]
        rfl
      rw [hlast, hsingle, List.append_nil, List.filter_filter]
      congr 1
      apply List.filter_congr
      intro x hx
      simp only [List.map_cons, List.contains_cons, Bool.not_or]
      by_cases h : x.Hostname = r.Hostname
      · simp [h]
      · simp [h]
    | false =>
      have hlast : lastOccRules (r :: t) = r :: lastOccRules t := by
        simp only [lastOccRules, hc]
        rfl
      have hsingle : ([r].filter
          (fun x => !((t.map UnvalidatedIngressRule.Hostname).contains x.Hostname))) = [r] := by
        simp only [List.filter_cons, hc, Bool.not_false, List.filter_nil]
        rfl
      rw [hlast, hsingle, List.filter_filter, List.append_assoc, List.singleton_append]
      congr 1
      apply List.filter_congr
      intro x hx
      simp only [List.map_cons, List.contains_cons, Bool.not_or]
      by_cases h : x.Hostname = r.Hostname
      · simp [h]
      · simp [h]

theorem lastOccRules_mem_hostnames : ∀ (rules : List UnvalidatedIngressRule) (x : String),
    (x ∈ (lastOccRules rules).map UnvalidatedIngressRule.Hostname ↔
      x ∈ rules.map UnvalidatedIngressRule.Hostname) := by
  intro rules
  induction rules with
  | nil =>
    intro x
    simp [lastOccRules]
  | cons r t ih =>
    intro x
    cases hc : (t.map UnvalidatedIngressRule.Hostname).contains r.Hostname with
    | true =>
      have hrm : r.Hostname ∈ t.map UnvalidatedIngressRule.Hostname := contains_iff_mem_str.mp hc
      have hlast : lastOccRules (r :: t) = lastOccRules t := by
        simp only [lastOccRules, hc, if_true]
      rw [hlast, List.map_cons, List.mem_cons]
      constructor
      · intro h
        exact Or.inr ((ih x).mp h)
      · intro h
        rcases h with h | h
        · exact (ih x).mpr (h ▸ hrm)
        · exact (ih x).mpr h
    | false =>
      have hlast : lastOccRules (r :: t) = r :: lastOccRules t := by
        simp only [lastOccRules, hc]
        rfl
      rw [hlast, List.map_cons, List.map_cons, List.mem_cons, List.mem_cons]
      constructor
      · intro h
        rcases h with h | h
        · exact Or.inl h
        · exact Or.inr ((ih x).mp h)
      · intro h
        rcases h with h | h
        · exact Or.inl h
        · exact Or.inr ((ih x).mpr h)

theorem lastOccRules_hostnames_nodup : ∀ rules : List UnvalidatedIngressRule,
    ((lastOccRules rules).map UnvalidatedIngressRule.Hostname).Nodup := by
  intro rules
  induction rules with
  | nil =>
    simp [lastOccRules]
  | cons r t ih =>
    cases hc : (t.map UnvalidatedIngressRule.Hostname).contains r.Hostname with
    | true =>
      have hlast : lastOccRules (r :: t) = lastOccRules t := by
        simp only [lastOccRules, hc, if_true]
      rw [hlast]
      exact ih
    | false =>
      have hrm : r.Hostname ∉ t.map UnvalidatedIngressRule.Hostname := by
        intro hmem
        have hcontra := contains_iff_mem_str.mpr hmem
        rw [hc] at hcontra
        simp at hcontra
      have hlast : lastOccRules (r :: t) = r :: lastOccRules t := by
        simp only [lastOccRules, hc]
        rfl
      rw [hlast, List.map_cons, List.nodup_cons]
      exact ⟨fun hmem => hrm ((lastOccRules_mem_hostnames t r.Hostname).mp hmem), ih⟩

/-- C1: for every sequence of OrderedMap.Add calls starting from a fresh
OrderedMap, Get returns each distinct hostname exactly once, ordered by the
position of its most recent Add and carrying the value of its most recent
Add (adding an absent key appends it, adding a present key moves it to the
end before storing the new value): Get equals lastOccRules, the sequence
restricted to the last occurrence of each hostname in order. -/
theorem C1_add_get_last_occurrence_order (rules : List UnvalidatedIngressRule) :
    (addAll (NewOrderedMap rules.length) rules).Get = lastOccRules rules ∧
    ((addAll (NewOrderedMap rules.length) rules).Get.map UnvalidatedIngressRule.Hostname).Nodup ∧
    (∀ h, h ∈ (addAll (NewOrderedMap rules.length) rules).Get.map UnvalidatedIngressRule.Hostname ↔
      h ∈ rules.map UnvalidatedIngressRule.Hostname) := by
  have hget : (addAll (NewOrderedMap rules.length) rules).Get = lastOccRules rules := by
    rw [addAll_get rules _ (inv_new _)]
    simp [NewOrderedMap, OrderedMap.Get]
  refine ⟨hget, ?_, ?_⟩
  · rw [hget]
    exact lastOccRules_hostnames_nodup rules
  · intro h
    rw [hget]
    exact lastOccRules_mem_hostnames rules h

/-- C4: OrderedMap.Update on an absent key equals OrderedMap.Add on that key
(the key is appended at the end of the order); Update on a present key
leaves the key order unchanged and only replaces the stored value at that
key. -/
theorem C4_update_absent_is_add_present_in_place (m : OrderedMap) (s : UnvalidatedIngressRule) :
    (m.data s.Hostname = none → m.Update s = m.Add s) ∧
    (∀ r, m.data s.Hostname = some r →
      (m.Update s).keys = m.keys ∧ (m.Update s).data s.Hostname = some s ∧
      ∀ k, k ≠ s.Hostname → (m.Update s).data k = m.data k) := by
  constructor
  · intro hnone
    simp [OrderedMap.Update, OrderedMap.Add, hnone]
  · intro r hsome
    refine ⟨?_, ?_, ?_⟩
    · simp [OrderedMap.Update, hsome]
    · simp [OrderedMap.Update, hsome]
    · intro k hk
      simp [OrderedMap.Update, hsome, hk]

/-- Endpoint from the external controller contract (sigs.k8s.io/external-dns
endpoint package): DNS name, record type, target values and TTL. -/
structure Endpoint where
  DNSName : String
  RecordType : String
  Targets : List String
  RecordTTL : Int
  deriving DecidableEq, Repr

/-- Changes structure of the controller contract (plan.Changes): the four
endpoint sets consumed by ApplyChanges. -/
structure Changes where
  Create : List Endpoint
  UpdateNew : List Endpoint
  UpdateOld : List Endpoint
  Delete : List Endpoint
  deriving DecidableEq, Repr

/-- Modelled from the spec: endpoint.NewEndpoint of the external-dns endpoint
package (not under src/) constructs an endpoint from a DNS name, a record
type and target values; this repository never sets a TTL through it. -/
def NewEndpoint (dnsName recordType : String) (targets : List String) : Endpoint :=
  { DNSName := dnsName, RecordType := recordType, Targets := targets, RecordTTL := 0 }

/-- Records of the CloudFlareTunnelProvider (cloudflaretunnel.go lines
100-113): one A-type endpoint per entry of the fetched tunnel ingress
configuration, built from the entry's Hostname and Service; no entry is
skipped. -/
def CFRecords (ingress : List UnvalidatedIngressRule) : List Endpoint :=
  ingress.map (fun config => NewEndpoint config.Hostname "A" [config.Service])

/-- Embedding of cloudflare.DNSRecord restricted to the fields this
repository reads or writes (the Go field Type is Rtype here: Type is a
Lean keyword). -/
structure DNSRecord where
  ID : String
  Name : String
  Rtype : String
  Content : String
  ZoneID : String
  deriving DecidableEq, Repr

/-- Embedding of cloudflare.CreateDNSRecordParams restricted to the fields
this repository sets. -/
structure CreateDNSRecordParams where
  Name : String
  TTL : Int
  Proxied : Option Bool
  Rtype : String
  Content : String
  ZoneID : String
  deriving DecidableEq, Repr

/-- Embedding of cloudflare.UpdateDNSRecordParams restricted to the fields
this repository sets. -/
structure UpdateDNSRecordParams where
  ID : String
  Name : String
  TTL : Int
  Proxied : Option Bool
  Rtype : String
  Content : String
  deriving DecidableEq, Repr

/-- The dnsUpdateParam pair local to ApplyChanges (cloudflaretunnel.go lines
164-167). -/
structure DnsUpdateParam where
  ZoneID : String
  cfup : UpdateDNSRecordParams
  deriving DecidableEq, Repr

/-- The dnsDeleteParam pair local to ApplyChanges (cloudflaretunnel.go lines
210-213). -/
structure DnsDeleteParam where
  ZoneID : String
  recordID : String
  deriving DecidableEq, Repr

/-- defaultOriginRequestConfig from cloudflaretunnel.go lines 43-46. -/
def defaultOriginRequestConfig : OriginRequestConfig :=
  { NoTLSVerify := some true, Http2Origin := some true }

/-- convertHttps from cloudflaretunnel.go lines 373-375. -/
def convertHttps (target : String) : String :=
  "https://" ++ target ++ ":443"

/-- getRecordID from cloudflaretunnel.go lines 344-351: the first listed
record matching on Name and Rtype, or the empty string. -/
def getRecordID (records : List DNSRecord) (record : DNSRecord) : String :=
  match records with
  | [] => ""
  | zoneRecord :: rest =>
    if zoneRecord.Name = record.Name ∧ zoneRecord.Rtype = record.Rtype then zoneRecord.ID
    else getRecordID rest record

/-- A mutating Cloudflare vendor call issued by ApplyChanges. -/
inductive CFCall where
  | updateTunnelConfiguration (ingress : List UnvalidatedIngressRule)
  | createDNSRecord (zoneID : String) (params : CreateDNSRecordParams)
  | updateDNSRecord (zoneID : String) (params : UpdateDNSRecordParams)
  | deleteDNSRecord (zoneID : String) (recordID : String)
  deriving DecidableEq, Repr

/-- Result of one of the three queueing loops of ApplyChanges: a Go panic
(out-of-range index), an early error return, or the updated OrderedMap with
the queued parameters. -/
inductive LoopRes (α : Type) where
  | panicked
  | err (msg : String)
  | ok (a : α)
  deriving DecidableEq, Repr

/-- Loading loop of ApplyChanges (cloudflaretunnel.go lines 129-135): Add
each fetched ingress rule until the first one with an empty hostname, which
becomes the catch-all and breaks the loop. -/
def loadIngress (m : OrderedMap) (catchAll : UnvalidatedIngressRule) :
    List UnvalidatedIngressRule → OrderedMap × UnvalidatedIngressRule
  | [] => (m, catchAll)
  | v :: rest =>
    if v.Hostname = "" then (m, v)
    else loadIngress (m.Add v) catchAll rest

/-- Create loop of ApplyChanges (cloudflaretunnel.go lines 137-162): skip
non-A endpoints; Add the HTTPS-wrapped rule (Targets[0] panics when Targets
is empty); skip the DNS queueing when the zone is unresolvable; otherwise
queue a CNAME create towards the tunnel domain. -/
def createLoop (tunnelId : String) (findZone : String → String) (m : OrderedMap)
    (acc : List CreateDNSRecordParams) :
    List Endpoint → LoopRes (OrderedMap × List CreateDNSRecordParams)
  | [] => .ok (m, acc)
  | e :: rest =>
    if e.RecordType = "A" then
      match e.Targets with
      | [] => .panicked
      | t :: _ =>
        let rule : UnvalidatedIngressRule :=
          { Hostname := e.DNSName, Service := convertHttps t,
            OriginRequest := some defaultOriginRequestConfig }
        let m1 := m.Add rule
        let zoneID := findZone e.DNSName
        if zoneID = "" then createLoop tunnelId findZone m1 acc rest
        else
          let p : CreateDNSRecordParams :=
            { Name := e.DNSName, TTL := 1, Proxied := some true, Rtype := "CNAME",
              Content := tunnelId ++ ".cfargotunnel.com", ZoneID := zoneID }
          createLoop tunnelId findZone m1 (acc ++ [p]) rest
    else createLoop tunnelId findZone m acc rest

/-- Update loop of ApplyChanges (cloudflaretunnel.go lines 168-208): skip
non-A endpoints; Update the HTTPS-wrapped rule (Targets[0] panics when
Targets is empty); skip when the zone is unresolvable; list the zone's
records (an error aborts ApplyChanges); queue a CNAME update under the id
found by getRecordID. -/
def updateLoop (tunnelId : String) (findZone : String → String)
    (recordsRes : String → Except String (List DNSRecord)) (m : OrderedMap)
    (acc : List DnsUpdateParam) :
    List Endpoint → LoopRes (OrderedMap × List DnsUpdateParam)
  | [] => .ok (m, acc)
  | e :: rest =>
    if e.RecordType = "A" then
      match e.Targets with
      | [] => .panicked
      | t :: _ =>
        let rule : UnvalidatedIngressRule :=
          { Hostname := e.DNSName, Service := convertHttps t,
            OriginRequest := some defaultOriginRequestConfig }
        let m1 := m.Update rule
        let zoneID := findZone e.DNSName
        if zoneID = "" then updateLoop tunnelId findZone recordsRes m1 acc rest
        else
          match recordsRes zoneID with
          | .error msg => .err msg
          | .ok records =>
            let probe : DNSRecord :=
              { ID := "", Name := e.DNSName, Rtype := "CNAME", Content := t,
                ZoneID := zoneID }
            let recordID := getRecordID records probe
            let p : DnsUpdateParam :=
              { ZoneID := zoneID,
                cfup :=
                  { ID := recordID, Name := e.DNSName, TTL := 1, Proxied := some true,
                    Rtype := "CNAME", Content := tunnelId ++ ".cfargotunnel.com" } }
            updateLoop tunnelId findZone recordsRes m1 (acc ++ [p]) rest
    else updateLoop tunnelId findZone recordsRes m acc rest

/-- Delete loop of ApplyChanges (cloudflaretunnel.go lines 214-241): skip
non-A endpoints; Remove the hostname from the ordered map; skip when the
zone is unresolvable; list the zone's records (an error aborts
ApplyChanges); queue a delete under the id found by getRecordID. -/
def deleteLoop (findZone : String → String)
    (recordsRes : String → Except String (List DNSRecord)) (m : OrderedMap)
    (acc : List DnsDeleteParam) :
    List Endpoint → LoopRes (OrderedMap × List DnsDeleteParam)
  | [] => .ok (m, acc)
  | e :: rest =>
    if e.RecordType = "A" then
      let rule : UnvalidatedIngressRule :=
        { Hostname := e.DNSName, Service := "", OriginRequest := none }
      let m1 := m.Remove rule
      let zoneID := findZone e.DNSName
      if zoneID = "" then deleteLoop findZone recordsRes m1 acc rest
      else
        match recordsRes zoneID with
        | .error msg => .err msg
        | .ok records =>
          let probe : DNSRecord :=
            { ID := "", Name := e.DNSName, Rtype := "CNAME", Content := "",
              ZoneID := "" }
          let p : DnsDeleteParam :=
            { ZoneID := zoneID, recordID := getRecordID records probe }
          deleteLoop findZone recordsRes m1 (acc ++ [p]) rest
    else deleteLoop findZone recordsRes m acc rest

/-- Execution loop for queued DNS creates (cloudflaretunnel.go lines
258-266): each call is issued; on a vendor error the loop logs and
continues, on success it logs and continues. -/
def execCreates (callErr : CFCall → Option String) :
    List CreateDNSRecordParams → List CFCall
  | [] => []
  | p :: rest =>
    match callErr (.createDNSRecord p.ZoneID p) with
    | some _ => .createDNSRecord p.ZoneID p :: execCreates callErr rest
    | none => .createDNSRecord p.ZoneID p :: execCreates callErr rest

/-- Execution loop for queued DNS updates (cloudflaretunnel.go lines
268-276): each call is issued; failures are logged and skipped. -/
def execUpdates (callErr : CFCall → Option String) :
    List DnsUpdateParam → List CFCall
  | [] => []
  | p :: rest =>
    match callErr (.updateDNSRecord p.ZoneID p.cfup) with
    | some _ => .updateDNSRecord p.ZoneID p.cfup :: execUpdates callErr rest
    | none => .updateDNSRecord p.ZoneID p.cfup :: execUpdates callErr rest

/-- Execution loop for queued DNS deletes (cloudflaretunnel.go lines
278-286): each call is issued; failures are logged and skipped. -/
def execDeletes (callErr : CFCall → Option String) :
    List DnsDeleteParam → List CFCall
  | [] => []
  | p :: rest =>
    match callErr (.deleteDNSRecord p.ZoneID p.recordID) with
    | some _ => .deleteDNSRecord p.ZoneID p.recordID :: execDeletes callErr rest
    | none => .deleteDNSRecord p.ZoneID p.recordID :: execDeletes callErr rest

/-- Result of CloudFlareTunnelProvider.ApplyChanges: a Go panic, an early
error return (before the ingress list was assembled), or completion with
the assembled ingress list, the trace of mutating vendor calls issued in
order, and the returned error (none is a nil return). -/
inductive ApplyResult where
  | panicked
  | earlyErr (msg : String)
  | done (assembled : List UnvalidatedIngressRule) (calls : List CFCall)
      (result : Option String)
  deriving DecidableEq, Repr

/-- The assembled ingress list of a completed ApplyChanges run. -/
def ApplyResult.assembledIngress : ApplyResult → Option (List UnvalidatedIngressRule)
  | .done a _ _ => some a
  | _ => none

/-- ApplyChanges of the CloudFlareTunnelProvider (cloudflaretunnel.go lines
115-289), after the zone-mapper refresh and the tunnel-configuration fetch
succeeded: findZone embeds zoneNameIDMapper.FindZone, recordsRes the result
of listDNSRecordsWithAutoPagination per zone, callErr the outcome of each
mutating vendor call, oldIngress the fetched tunnel ingress list. The
ingress rules before the first empty-hostname rule are loaded into an
OrderedMap and the three change loops run; the new ingress list is the
map's Get plus the catch-all; dry-run returns before any mutating call;
otherwise the tunnel update is pushed (an error there is returned wrapped)
and the queued creates, updates and deletes are executed. -/
def CFApplyChanges (tunnelId : String) (dryRun : Bool) (findZone : String → String)
    (recordsRes : String → Except String (List DNSRecord))
    (callErr : CFCall → Option String) (oldIngress : List UnvalidatedIngressRule)
    (changes : Changes) : ApplyResult :=
  let loaded := loadIngress (NewOrderedMap oldIngress.length) default oldIngress
  match createLoop tunnelId findZone loaded.1 [] changes.Create with
  | .panicked => .panicked
  | .err msg => .earlyErr msg
  | .ok (m1, dnsCreateParams) =>
    match updateLoop tunnelId findZone recordsRes m1 [] changes.UpdateNew with
    | .panicked => .panicked
    | .err msg => .earlyErr msg
    | .ok (m2, dnsUpdateParams) =>
      match deleteLoop findZone recordsRes m2 [] changes.Delete with
      | .panicked => .panicked
      | .err msg => .earlyErr msg
      | .ok (m3, dnsDeleteParams) =>
        let assembled := m3.Get ++ [loaded.2]
        if dryRun then .done assembled [] none
        else
          match callErr (.updateTunnelConfiguration assembled) with
          | some msg =>
            .done assembled [.updateTunnelConfiguration assembled]
              (some ("failed to update tunnel configs: " ++ msg))
          | none =>
            .done assembled
              (.updateTunnelConfiguration assembled ::
                (execCreates callErr dnsCreateParams ++
                 execUpdates callErr dnsUpdateParams ++
                 execDeletes callErr dnsDeleteParams))
              none

/-- The OrderedMap holding the fetched ingress rules that precede the first
empty-hostname rule, added in order. -/
def loadMapOf (ingress : List UnvalidatedIngressRule) : OrderedMap :=
  (ingress.takeWhile (fun v => v.Hostname ≠ "")).foldl (fun m v => m.Add v)
    (NewOrderedMap ingress.length)

/-- The catch-all rule ApplyChanges separates out: the first fetched rule
with an empty hostname, or the Go zero value when there is none. -/
def catchAllOf (ingress : List UnvalidatedIngressRule) : UnvalidatedIngressRule :=
  (ingress.dropWhile (fun v => v.Hostname ≠ "")).headD default

/-- The ingress rule the create and update loops build from an A-type
endpoint: hostname, HTTPS-wrapped first target, default origin options. -/
def mkARule (e : Endpoint) : UnvalidatedIngressRule :=
  { Hostname := e.DNSName, Service := convertHttps (e.Targets.headD ""),
    OriginRequest := some defaultOriginRequestConfig }

/-- Net effect of the create loop on the OrderedMap: Add for every A-type
endpoint (zone resolution does not gate the map update). -/
def createMapFold (m : OrderedMap) (eps : List Endpoint) : OrderedMap :=
  eps.foldl (fun acc e => if e.RecordType = "A" then acc.Add (mkARule e) else acc) m

/-- Net effect of the update loop on the OrderedMap: Update for every A-type
endpoint. -/
def updateMapFold (m : OrderedMap) (eps : List Endpoint) : OrderedMap :=
  eps.foldl (fun acc e => if e.RecordType = "A" then acc.Update (mkARule e) else acc) m

/-- Net effect of the delete loop on the OrderedMap: Remove by hostname for
every A-type endpoint. -/
def deleteMapFold (m : OrderedMap) (eps : List Endpoint) : OrderedMap :=
  eps.foldl (fun acc e =>
    if e.RecordType = "A" then
      acc.Remove { Hostname := e.DNSName, Service := "", OriginRequest := none }
    else acc) m

/-- The CNAME create parameters ApplyChanges queues for an endpoint. -/
def mkCreateParams (tunnelId zoneID : String) (e : Endpoint) : CreateDNSRecordParams :=
  { Name := e.DNSName, TTL := 1, Proxied := some true, Rtype := "CNAME",
    Content := tunnelId ++ ".cfargotunnel.com", ZoneID := zoneID }

/-- The DNS creates the create loop queues: one per A-type endpoint whose
zone resolves. -/
def createQueue (tunnelId : String) (findZone : String → String)
    (eps : List Endpoint) : List CreateDNSRecordParams :=
  eps.filterMap (fun e =>
    if e.RecordType = "A" ∧ findZone e.DNSName ≠ "" then
      some (mkCreateParams tunnelId (findZone e.DNSName) e)
    else none)

/-- The listed records of a zone when the listing succeeded. -/
def recordsOf (recordsRes : String → Except String (List DNSRecord)) (z : String) :
    List DNSRecord :=
  match recordsRes z with
  | .ok l => l
  | .error _ => []

/-- The lookup probe the update loop hands to getRecordID. -/
def probeUpdate (zoneID : String) (e : Endpoint) : DNSRecord :=
  { ID := "", Name := e.DNSName, Rtype := "CNAME", Content := e.Targets.headD "",
    ZoneID := zoneID }

/-- The CNAME update parameters ApplyChanges queues for an endpoint. -/
def mkUpdateParam (tunnelId zoneID recordID : String) (e : Endpoint) : DnsUpdateParam :=
  { ZoneID := zoneID,
    cfup :=
      { ID := recordID, Name := e.DNSName, TTL := 1, Proxied := some true,
        Rtype := "CNAME", Content := tunnelId ++ ".cfargotunnel.com" } }

/-- The DNS updates the update loop queues: one per A-type endpoint whose
zone resolves, under the id getRecordID finds in the zone's listed records. -/
def updateQueue (tunnelId : String) (findZone : String → String)
    (recordsRes : String → Except String (List DNSRecord))
    (eps : List Endpoint) : List DnsUpdateParam :=
  eps.filterMap (fun e =>
    if e.RecordType = "A" ∧ findZone e.DNSName ≠ "" then
      some (mkUpdateParam tunnelId (findZone e.DNSName)
        (getRecordID (recordsOf recordsRes (findZone e.DNSName))
          (probeUpdate (findZone e.DNSName) e)) e)
    else none)

/-- The lookup probe the delete loop hands to getRecordID. -/
def probeDelete (e : Endpoint) : DNSRecord :=
  { ID := "", Name := e.DNSName, Rtype := "CNAME", Content := "", ZoneID := "" }

/-- The DNS deletes the delete loop queues: one per A-type endpoint whose
zone resolves. -/
def deleteQueue (findZone : String → String)
    (recordsRes : String → Except String (List DNSRecord))
    (eps : List Endpoint) : List DnsDeleteParam :=
  eps.filterMap (fun e =>
    if e.RecordType = "A" ∧ findZone e.DNSName ≠ "" then
      some { ZoneID := findZone e.DNSName,
             recordID := getRecordID (recordsOf recordsRes (findZone e.DNSName))
               (probeDelete e) }
    else none)

theorem loadIngress_eq : ∀ (ingress : List UnvalidatedIngressRule)
    (m : OrderedMap) (ca : UnvalidatedIngressRule),
    loadIngress m ca ingress =
      ((ingress.takeWhile (fun v => v.Hostname ≠ "")).foldl (fun acc v => acc.Add v) m,
       (ingress.dropWhile (fun v => v.Hostname ≠ "")).headD ca) := by
  intro ingress
  induction ingress with
  | nil =>
    intro m ca
    simp [loadIngress]
  | cons v rest ih =>
    intro m ca
    by_cases hv : v.Hostname = ""
    · simp [loadIngress, hv, List.takeWhile_cons, List.dropWhile_cons]
    · simp [loadIngress, hv, List.takeWhile_cons, List.dropWhile_cons]
      simpa using ih (m.Add v) ca

theorem createLoop_eq (tunnelId : String) (findZone : String → String) :
    ∀ (eps : List Endpoint) (m : OrderedMap) (acc : List CreateDNSRecordParams),
      (∀ e ∈ eps, e.RecordType = "A" → e.Targets ≠ []) →
      createLoop tunnelId findZone m acc eps =
        .ok (createMapFold m eps, acc ++ createQueue tunnelId findZone eps) := by
  intro eps
  induction eps with
  | nil =>
    intro m acc h
    simp [createLoop, createMapFold, createQueue]
  | cons e rest ih =>
    intro m acc h
    have he := h e (List.mem_cons_self e rest)
    have hrest : ∀ x ∈ rest, x.RecordType = "A" → x.Targets ≠ [] :=
      fun x hx => h x (List.mem_cons_of_mem e hx)
    by_cases hA : e.RecordType = "A"
    · cases hT : e.Targets with
      | nil => exact absurd hT (he hA)
      | cons t ts =>
        have hrule : mkARule e =
            { Hostname := e.DNSName, Service := convertHttps t,
              OriginRequest := some defaultOriginRequestConfig } := by
          simp [mkARule, hT]
        by_cases hz : findZone e.DNSName = ""
        · simp only [createLoop, hA, if_true, hT]
          rw [ih _ _ hrest]
          have hmap : createMapFold m (e :: rest) =
              createMapFold (m.Add (mkARule e)) rest := by
            simp [createMapFold, hA]
          have hq : createQueue tunnelId findZone (e :: rest) =
              createQueue tunnelId findZone rest := by
            simp [createQueue, List.filterMap_cons, hA, hz]
          simp [hz, hmap, hq, hrule]
        · simp only [createLoop, hA, if_true, hT, hz, if_false]
          rw [ih _ _ hrest]
          have hmap : createMapFold m (e :: rest) =
              createMapFold (m.Add (mkARule e)) rest := by
            simp [createMapFold, hA]
          have hq : createQueue tunnelId findZone (e :: rest) =
              mkCreateParams tunnelId (findZone e.DNSName) e ::
                createQueue tunnelId findZone rest := by
            simp [createQueue, List.filterMap_cons, hA, hz]
          simp [hz, hmap, hq, hrule, mkCreateParams, List.append_assoc]
    · simp only [createLoop, hA, if_false]
      rw [ih _ _ hrest]
      have hmap : createMapFold m (e :: rest) = createMapFold m rest := by
        simp [createMapFold, hA]
      have hq : createQueue tunnelId findZone (e :: rest) =
          createQueue tunnelId findZone rest := by
        simp [createQueue, List.filterMap_cons, hA]
      simp [hmap, hq]

theorem updateLoop_eq (tunnelId : String) (findZone : String → String)
    (recordsRes : String → Except String (List DNSRecord))
    (hRecords : ∀ z, ∃ l, recordsRes z = .ok l) :
    ∀ (eps : List Endpoint) (m : OrderedMap) (acc : List DnsUpdateParam),
      (∀ e ∈ eps, e.RecordType = "A" → e.Targets ≠ []) →
      updateLoop tunnelId findZone recordsRes m acc eps =
        .ok (updateMapFold m eps, acc ++ updateQueue tunnelId findZone recordsRes eps) := by
  intro eps
  induction eps with
  | nil =>
    intro m acc h
    simp [updateLoop, updateMapFold, updateQueue]
  | cons e rest ih =>
    intro m acc h
    have he := h e (List.mem_cons_self e rest)
    have hrest : ∀ x ∈ rest, x.RecordType = "A" → x.Targets ≠ [] :=
      fun x hx => h x (List.mem_cons_of_mem e hx)
    by_cases hA : e.RecordType = "A"
    · cases hT : e.Targets with
      | nil => exact absurd hT (he hA)
      | cons t ts =>
        have hrule : mkARule e =
            { Hostname := e.DNSName, Service := convertHttps t,
              OriginRequest := some defaultOriginRequestConfig } := by
          simp [mkARule, hT]
        have hmap : updateMapFold m (e :: rest) =
            updateMapFold (m.Update (mkARule e)) rest := by
          simp [updateMapFold, hA]
        by_cases hz : findZone e.DNSName = ""
        · simp only [updateLoop, hA, if_true, hT, hz]
          rw [ih _ _ hrest]
          have hq : updateQueue tunnelId findZone recordsRes (e :: rest) =
              updateQueue tunnelId findZone recordsRes rest := by
            simp [updateQueue, List.filterMap_cons, hA, hz]
          simp [hmap, hq, hrule]
        · obtain ⟨l, hl⟩ := hRecords (findZone e.DNSName)
          have hprobe : probeUpdate (findZone e.DNSName) e =
              { ID := "", Name := e.DNSName, Rtype := "CNAME", Content := t,
                ZoneID := findZone e.DNSName } := by
            simp [probeUpdate, hT]
          simp only [updateLoop, hA, if_true, hT, hz, if_false, hl]
          rw [ih _ _ hrest]
          have hq : updateQueue tunnelId findZone recordsRes (e :: rest) =
              mkUpdateParam tunnelId (findZone e.DNSName)
                (getRecordID (recordsOf recordsRes (findZone e.DNSName))
                  (probeUpdate (findZone e.DNSName) e)) e ::
                updateQueue tunnelId findZone recordsRes rest := by
            simp [updateQueue, List.filterMap_cons, hA, hz]
          have hrec : recordsOf recordsRes (findZone e.DNSName) = l := by
            simp [recordsOf, hl]
          simp [hmap, hq, hrule, hprobe, hrec, mkUpdateParam, List.append_assoc]
    · simp only [updateLoop, hA, if_false]
      rw [ih _ _ hrest]
      have hmap : updateMapFold m (e :: rest) = updateMapFold m rest := by
        simp [updateMapFold, hA]
      have hq : updateQueue tunnelId findZone recordsRes (e :: rest) =
          updateQueue tunnelId findZone recordsRes rest := by
        simp [updateQueue, List.filterMap_cons, hA]
      simp [hmap, hq]

theorem deleteLoop_eq (findZone : String → String)
    (recordsRes : String → Except String (List DNSRecord))
    (hRecords : ∀ z, ∃ l, recordsRes z = .ok l) :
    ∀ (eps : List Endpoint) (m : OrderedMap) (acc : List DnsDeleteParam),
      deleteLoop findZone recordsRes m acc eps =
        .ok (deleteMapFold m eps, acc ++ deleteQueue findZone recordsRes eps) := by
  intro eps
  induction eps with
  | nil =>
    intro m acc
    simp [deleteLoop, deleteMapFold, deleteQueue]
  | cons e rest ih =>
    intro m acc
    by_cases hA : e.RecordType = "A"
    · have hmap : deleteMapFold m (e :: rest) =
          deleteMapFold (m.Remove ⟨e.DNSName, "", none⟩) rest := by
        simp only [deleteMapFold, List.foldl_cons, hA, if_true]
      by_cases hz : findZone e.DNSName = ""
      · simp only [deleteLoop, hA, if_true, hz]
        rw [ih _ _]
        have hq : deleteQueue findZone recordsRes (e :: rest) =
            deleteQueue findZone recordsRes rest := by
          simp [deleteQueue, List.filterMap_cons, hA, hz]
        simp [hmap, hq]
      · obtain ⟨l, hl⟩ := hRecords (findZone e.DNSName)
        have hrec : recordsOf recordsRes (findZone e.DNSName) = l := by
          simp [recordsOf, hl]
        simp only [deleteLoop, hA, if_true, hz, if_false, hl]
        rw [ih _ _]
        have hq : deleteQueue findZone recordsRes (e :: rest) =
            { ZoneID := findZone e.DNSName,
              recordID := getRecordID (recordsOf recordsRes (findZone e.DNSName))
                (probeDelete e) } :: deleteQueue findZone recordsRes rest := by
          simp [deleteQueue, List.filterMap_cons, hA, hz]
        simp [hmap, hq, hrec, probeDelete, List.append_assoc]
    · simp only [deleteLoop, hA, if_false]
      rw [ih _ _]
      have hmap : deleteMapFold m (e :: rest) = deleteMapFold m rest := by
        simp [deleteMapFold, hA]
      have hq : deleteQueue findZone recordsRes (e :: rest) =
          deleteQueue findZone recordsRes rest := by
        simp [deleteQueue, List.filterMap_cons, hA]
      simp [hmap, hq]

theorem execCreates_eq (callErr : CFCall → Option String) :
    ∀ l : List CreateDNSRecordParams,
      execCreates callErr l = l.map (fun p => .createDNSRecord p.ZoneID p) := by
  intro l
  induction l with
  | nil => rfl
  | cons p rest ih =>
    cases hc : callErr (.createDNSRecord p.ZoneID p) <;>
      simp [execCreates, hc, ih]

theorem execUpdates_eq (callErr : CFCall → Option String) :
    ∀ l : List DnsUpdateParam,
      execUpdates callErr l = l.map (fun p => .updateDNSRecord p.ZoneID p.cfup) := by
  intro l
  induction l with
  | nil => rfl
  | cons p rest ih =>
    cases hc : callErr (.updateDNSRecord p.ZoneID p.cfup) <;>
      simp [execUpdates, hc, ih]

theorem execDeletes_eq (callErr : CFCall → Option String) :
    ∀ l : List DnsDeleteParam,
      execDeletes callErr l = l.map (fun p => .deleteDNSRecord p.ZoneID p.recordID) := by
  intro l
  induction l with
  | nil => rfl
  | cons p rest ih =>
    cases hc : callErr (.deleteDNSRecord p.ZoneID p.recordID) <;>
      simp [execDeletes, hc, ih]

theorem CFApplyChanges_eq (tunnelId : String) (dryRun : Bool)
    (findZone : String → String)
    (recordsRes : String → Except String (List DNSRecord))
    (callErr : CFCall → Option String)
    (oldIngress : List UnvalidatedIngressRule) (changes : Changes)
    (hTargets : ∀ e ∈ changes.Create ++ changes.UpdateNew,
      e.RecordType = "A" → e.Targets ≠ [])
    (hRecords : ∀ z, ∃ l, recordsRes z = .ok l) :
    CFApplyChanges tunnelId dryRun findZone recordsRes callErr oldIngress changes =
      (fun assembled =>
        if dryRun then ApplyResult.done assembled [] none
        else
          match callErr (.updateTunnelConfiguration assembled) with
          | some msg =>
            ApplyResult.done assembled [.updateTunnelConfiguration assembled]
              (some ("failed to update tunnel configs: " ++ msg))
          | none =>
            ApplyResult.done assembled
              (.updateTunnelConfiguration assembled ::
                ((createQueue tunnelId findZone changes.Create).map
                    (fun p => .createDNSRecord p.ZoneID p) ++
                  (updateQueue tunnelId findZone recordsRes changes.UpdateNew).map
                    (fun p => .updateDNSRecord p.ZoneID p.cfup) ++
                  (deleteQueue findZone recordsRes changes.Delete).map
                    (fun p => .deleteDNSRecord p.ZoneID p.recordID)))
              none)
        ((deleteMapFold (updateMapFold (createMapFold (loadMapOf oldIngress)
            changes.Create) changes.UpdateNew) changes.Delete).Get ++
          [catchAllOf oldIngress]) := by
  have hTC : ∀ e ∈ changes.Create, e.RecordType = "A" → e.Targets ≠ [] :=
    fun e he => hTargets e (List.mem_append.mpr (Or.inl he))
  have hTU : ∀ e ∈ changes.UpdateNew, e.RecordType = "A" → e.Targets ≠ [] :=
    fun e he => hTargets e (List.mem_append.mpr (Or.inr he))
  unfold CFApplyChanges
  rw [loadIngress_eq]
  simp only []
  rw [createLoop_eq tunnelId findZone changes.Create _ [] hTC]
  simp only []
  rw [updateLoop_eq tunnelId findZone recordsRes hRecords changes.UpdateNew _ [] hTU]
  simp only []
  rw [deleteLoop_eq findZone recordsRes hRecords changes.Delete _ []]
  simp only [List.nil_append]
  rw [execCreates_eq, execUpdates_eq, execDeletes_eq]
  simp only [loadMapOf, catchAllOf]

theorem createLoop_ne_panic (tunnelId : String) (findZone : String → String) :
    ∀ (eps : List Endpoint) (m : OrderedMap) (acc : List CreateDNSRecordParams),
      (∀ e ∈ eps, e.RecordType = "A" → e.Targets ≠ []) →
      createLoop tunnelId findZone m acc eps ≠ .panicked := by
  intro eps
  induction eps with
  | nil =>
    intro m acc h
    simp [createLoop]
  | cons e rest ih =>
    intro m acc h
    have he := h e (List.mem_cons_self e rest)
    have hrest : ∀ x ∈ rest, x.RecordType = "A" → x.Targets ≠ [] :=
      fun x hx => h x (List.mem_cons_of_mem e hx)
    by_cases hA : e.RecordType = "A"
    · cases hT : e.Targets with
      | nil => exact absurd hT (he hA)
      | cons t ts =>
        by_cases hz : findZone e.DNSName = ""
        · simp only [createLoop, hA, if_true, hT, hz]
          exact ih _ _ hrest
        · simp only [createLoop, hA, if_true, hT, hz, if_false]
          exact ih _ _ hrest
    · simp only [createLoop, hA, if_false]
      exact ih _ _ hrest

theorem updateLoop_ne_panic (tunnelId : String) (findZone : String → String)
    (recordsRes : String → Except String (List DNSRecord)) :
    ∀ (eps : List Endpoint) (m : OrderedMap) (acc : List DnsUpdateParam),
      (∀ e ∈ eps, e.RecordType = "A" → e.Targets ≠ []) →
      updateLoop tunnelId findZone recordsRes m acc eps ≠ .panicked := by
  intro eps
  induction eps with
  | nil =>
    intro m acc h
    simp [updateLoop]
  | cons e rest ih =>
    intro m acc h
    have he := h e (List.mem_cons_self e rest)
    have hrest : ∀ x ∈ rest, x.RecordType = "A" → x.Targets ≠ [] :=
      fun x hx => h x (List.mem_cons_of_mem e hx)
    by_cases hA : e.RecordType = "A"
    · cases hT : e.Targets with
      | nil => exact absurd hT (he hA)
      | cons t ts =>
        by_cases hz : findZone e.DNSName = ""
        · simp only [updateLoop, hA, if_true, hT, hz]
          exact ih _ _ hrest
        · simp only [updateLoop, hA, if_true, hT, hz, if_false]
          cases hrec : recordsRes (findZone e.DNSName) with
          | error msg => simp
          | ok records =>
            simp only []
            exact ih _ _ hrest
    · simp only [updateLoop, hA, if_false]
      exact ih _ _ hrest

theorem deleteLoop_ne_panic (findZone : String → String)
    (recordsRes : String → Except String (List DNSRecord)) :
    ∀ (eps : List Endpoint) (m : OrderedMap) (acc : List DnsDeleteParam),
      deleteLoop findZone recordsRes m acc eps ≠ .panicked := by
  intro eps
  induction eps with
  | nil =>
    intro m acc
    simp [deleteLoop]
  | cons e rest ih =>
    intro m acc
    by_cases hA : e.RecordType = "A"
    · by_cases hz : findZone e.DNSName = ""
      · simp only [deleteLoop, hA, if_true, hz]
        exact ih _ _
      · simp only [deleteLoop, hA, if_true, hz, if_false]
        cases hrec : recordsRes (findZone e.DNSName) with
        | error msg => simp
        | ok records =>
          simp only []
          exact ih _ _
    · simp only [deleteLoop, hA, if_false]
      exact ih _ _

/-- C2 (amended): ApplyChanges loads exactly the fetched ingress rules that
precede the first empty-hostname rule into the OrderedMap (the loading loop
breaks at that rule, so later rules are dropped), separates that first
empty-hostname rule out as the catch-all (the zero value when none exists),
and the assembled ingress list sent in the tunnel-configuration update is
the OrderedMap contents in order after the change loops, followed by the
catch-all appended last. -/
theorem C2_assembled_ingress_structure (tunnelId : String) (dryRun : Bool)
    (findZone : String → String)
    (recordsRes : String → Except String (List DNSRecord))
    (callErr : CFCall → Option String)
    (oldIngress : List UnvalidatedIngressRule) (changes : Changes)
    (hTargets : ∀ e ∈ changes.Create ++ changes.UpdateNew,
      e.RecordType = "A" → e.Targets ≠ [])
    (hRecords : ∀ z, ∃ l, recordsRes z = .ok l) :
    (CFApplyChanges tunnelId dryRun findZone recordsRes callErr oldIngress
        changes).assembledIngress =
      some ((deleteMapFold (updateMapFold (createMapFold (loadMapOf oldIngress)
          changes.Create) changes.UpdateNew) changes.Delete).Get ++
        [catchAllOf oldIngress]) := by
  rw [CFApplyChanges_eq tunnelId dryRun findZone recordsRes callErr oldIngress
    changes hTargets hRecords]
  by_cases hd : dryRun
  · simp [hd, ApplyResult.assembledIngress]
  · simp only [hd, if_false]
    cases callErr (.updateTunnelConfiguration _) <;>
      simp [ApplyResult.assembledIngress]

/-- A concrete A-type endpoint with one target, used in concrete instances. -/
def epA : Endpoint :=
  { DNSName := "a.example.com", RecordType := "A", Targets := ["1.2.3.4"],
    RecordTTL := 0 }

/-- A concrete fetched ingress rule with a non-empty hostname. -/
def ruleH0 : UnvalidatedIngressRule :=
  { Hostname := "h0", Service := "s0", OriginRequest := none }

/-- A concrete catch-all ingress rule (empty hostname). -/
def ruleCatch : UnvalidatedIngressRule :=
  { Hostname := "", Service := "svc0", OriginRequest := none }

/-- A concrete non-empty-hostname ingress rule listed after the catch-all. -/
def ruleH1 : UnvalidatedIngressRule :=
  { Hostname := "h", Service := "svc1", OriginRequest := none }

/-- Changes consisting of a single create of epA. -/
def changesCreateA : Changes :=
  { Create := [epA], UpdateNew := [], UpdateOld := [], Delete := [] }

/-- Changes with all four sets empty. -/
def emptyChanges : Changes :=
  { Create := [], UpdateNew := [], UpdateOld := [], Delete := [] }

/-- C2 witness: a concrete run of the amended statement. -/
theorem C2_assembled_ingress_structure_witness :
    (CFApplyChanges "t1" false (fun _ => "z1") (fun _ => Except.ok [])
        (fun _ => none) [ruleH0] changesCreateA).assembledIngress =
      some ((deleteMapFold (updateMapFold (createMapFold (loadMapOf [ruleH0])
          changesCreateA.Create) changesCreateA.UpdateNew)
          changesCreateA.Delete).Get ++ [catchAllOf [ruleH0]]) :=
  C2_assembled_ingress_structure "t1" false (fun _ => "z1") (fun _ => Except.ok [])
    (fun _ => none) [ruleH0] changesCreateA
    (by
      intro e he
      simp [changesCreateA] at he
      subst he
      intro _
      simp [epA])
    (fun z => ⟨[], rfl⟩)

/-- C2 counterexample: with the fetched ingress list putting the catch-all
first, the non-empty-hostname rule after it is not loaded into the
OrderedMap and is absent from the assembled ingress list, contradicting the
claim that every non-empty-hostname rule of the fetched configuration is
loaded and reflected in the assembled list. -/
theorem C2_counterexample_rule_after_catchall_dropped :
    (CFApplyChanges "t" false (fun _ => "") (fun _ => Except.ok [])
        (fun _ => none) [ruleCatch, ruleH1] emptyChanges).assembledIngress =
      some [ruleCatch] ∧
    ruleH1 ∉ [ruleCatch] := by
  constructor
  · rfl
  · decide

/-- C3 (amended): Records emits exactly one A-type endpoint per entry of the
fetched ingress configuration, carrying the entry's hostname and service,
including the catch-all entry (empty hostname), which is not skipped. -/
theorem C3_records_one_endpoint_per_entry (ingress : List UnvalidatedIngressRule) :
    List.Forall₂ (fun ep c => ep = NewEndpoint c.Hostname "A" [c.Service])
      (CFRecords ingress) ingress := by
  induction ingress with
  | nil =>
    simp [CFRecords]
  | cons c rest ih =>
    simp only [CFRecords, List.map_cons]
    exact List.forall₂_cons.mpr ⟨rfl, ih⟩

/-- C3 counterexample: the catch-all entry is not ignored: Records on a
configuration containing the empty-hostname entry produces an endpoint for
it (with an empty DNS name) as well. -/
theorem C3_counterexample_catchall_not_ignored :
    (CFRecords [{ Hostname := "h", Service := "s", OriginRequest := none },
        { Hostname := "", Service := "svc", OriginRequest := none }]).length = 2 ∧
    NewEndpoint "" "A" ["svc"] ∈
      CFRecords [{ Hostname := "h", Service := "s", OriginRequest := none },
        { Hostname := "", Service := "svc", OriginRequest := none }] := by
  constructor
  · rfl
  · decide

/-- C6: in a non-dry-run ApplyChanges whose tunnel-configuration push
succeeds, the queued DNS creates, then updates, then deletes are executed in
that order, every queued operation is issued regardless of per-operation
vendor failures (a failure is logged and skipped), and ApplyChanges returns
nil. -/
theorem C6_mutation_order_and_nil_despite_failures (tunnelId : String)
    (findZone : String → String)
    (recordsRes : String → Except String (List DNSRecord))
    (callErr : CFCall → Option String)
    (oldIngress : List UnvalidatedIngressRule) (changes : Changes)
    (hTargets : ∀ e ∈ changes.Create ++ changes.UpdateNew,
      e.RecordType = "A" → e.Targets ≠ [])
    (hRecords : ∀ z, ∃ l, recordsRes z = .ok l)
    (hTunnel : ∀ ing, callErr (.updateTunnelConfiguration ing) = none) :
    CFApplyChanges tunnelId false findZone recordsRes callErr oldIngress changes =
      .done
        ((deleteMapFold (updateMapFold (createMapFold (loadMapOf oldIngress)
            changes.Create) changes.UpdateNew) changes.Delete).Get ++
          [catchAllOf oldIngress])
        (.updateTunnelConfiguration
            ((deleteMapFold (updateMapFold (createMapFold (loadMapOf oldIngress)
                changes.Create) changes.UpdateNew) changes.Delete).Get ++
              [catchAllOf oldIngress]) ::
          ((createQueue tunnelId findZone changes.Create).map
              (fun p => .createDNSRecord p.ZoneID p) ++
            (updateQueue tunnelId findZone recordsRes changes.UpdateNew).map
              (fun p => .updateDNSRecord p.ZoneID p.cfup) ++
            (deleteQueue findZone recordsRes changes.Delete).map
              (fun p => .deleteDNSRecord p.ZoneID p.recordID)))
        none := by
  rw [CFApplyChanges_eq tunnelId false findZone recordsRes callErr oldIngress
    changes hTargets hRecords]
  simp [hTunnel]

/-- C6 witness: a concrete non-dry-run in which the vendor fails every DNS
create call, yet all queued operations are issued and nil is returned. -/
theorem C6_mutation_order_and_nil_despite_failures_witness :
    CFApplyChanges "t1" false (fun _ => "z1") (fun _ => Except.ok [])
        (fun c => match c with
          | CFCall.createDNSRecord _ _ => some "boom"
          | _ => none)
        [ruleH0] changesCreateA =
      .done
        ((deleteMapFold (updateMapFold (createMapFold (loadMapOf [ruleH0])
            changesCreateA.Create) changesCreateA.UpdateNew)
            changesCreateA.Delete).Get ++ [catchAllOf [ruleH0]])
        (.updateTunnelConfiguration
            ((deleteMapFold (updateMapFold (createMapFold (loadMapOf [ruleH0])
                changesCreateA.Create) changesCreateA.UpdateNew)
                changesCreateA.Delete).Get ++ [catchAllOf [ruleH0]]) ::
          ((createQueue "t1" (fun _ => "z1") changesCreateA.Create).map
              (fun p => .createDNSRecord p.ZoneID p) ++
            (updateQueue "t1" (fun _ => "z1") (fun _ => Except.ok [])
                changesCreateA.UpdateNew).map
              (fun p => .updateDNSRecord p.ZoneID p.cfup) ++
            (deleteQueue (fun _ => "z1") (fun _ => Except.ok [])
                changesCreateA.Delete).map
              (fun p => .deleteDNSRecord p.ZoneID p.recordID)))
        none :=
  C6_mutation_order_and_nil_despite_failures "t1" (fun _ => "z1")
    (fun _ => Except.ok [])
    (fun c => match c with
      | CFCall.createDNSRecord _ _ => some "boom"
      | _ => none)
    [ruleH0] changesCreateA
    (by
      intro e he
      simp [changesCreateA] at he
      subst he
      intro _
      simp [epA])
    (fun z => ⟨[], rfl⟩)
    (fun ing => rfl)

/-- C9: with DryRun set, ApplyChanges on a single A-type Create endpoint
issues no mutating vendor call at all, still computes the would-be ingress
list (the loaded map plus the added rule, with the catch-all last), and
returns without error. -/
theorem C9_dryrun_no_mutating_calls (tunnelId : String)
    (findZone : String → String)
    (recordsRes : String → Except String (List DNSRecord))
    (callErr : CFCall → Option String)
    (oldIngress : List UnvalidatedIngressRule) (ep : Endpoint)
    (hA : ep.RecordType = "A") (hT : ep.Targets ≠ [])
    (hRecords : ∀ z, ∃ l, recordsRes z = .ok l) :
    CFApplyChanges tunnelId true findZone recordsRes callErr oldIngress
        { Create := [ep], UpdateNew := [], UpdateOld := [], Delete := [] } =
      .done (((loadMapOf oldIngress).Add (mkARule ep)).Get ++
        [catchAllOf oldIngress]) [] none := by
  have hTargets : ∀ e ∈ [ep] ++ ([] : List Endpoint),
      e.RecordType = "A" → e.Targets ≠ [] := by
    intro e he
    simp at he
    subst he
    intro _
    exact hT
  rw [CFApplyChanges_eq tunnelId true findZone recordsRes callErr oldIngress
    { Create := [ep], UpdateNew := [], UpdateOld := [], Delete := [] }
    hTargets hRecords]
  simp [createMapFold, updateMapFold, deleteMapFold, hA]

/-- C9 witness: a concrete dry run. -/
theorem C9_dryrun_no_mutating_calls_witness :
    CFApplyChanges "t1" true (fun _ => "z1") (fun _ => Except.ok [])
        (fun _ => none) [ruleH0]
        { Create := [epA], UpdateNew := [], UpdateOld := [], Delete := [] } =
      .done (((loadMapOf [ruleH0]).Add (mkARule epA)).Get ++
        [catchAllOf [ruleH0]]) [] none :=
  C9_dryrun_no_mutating_calls "t1" (fun _ => "z1") (fun _ => Except.ok [])
    (fun _ => none) [ruleH0] epA rfl (by simp [epA]) (fun z => ⟨[], rfl⟩)

/-- An A-type endpoint with an empty Targets list: indexing Targets[0] on it
is out of bounds in the Go source. -/
def epEmptyTargets : Endpoint :=
  { DNSName := "h", RecordType := "A", Targets := [], RecordTTL := 0 }

/-- C10: ApplyChanges indexes Targets[0] of every A-type endpoint in Create
and UpdateNew without a guard: the embedding never reaches the panic branch
when every such endpoint has at least one target, and it does panic at a
concrete input whose A-type Create endpoint has an empty Targets list. -/
theorem C10_targets_index_unguarded :
    (∀ (tunnelId : String) (dryRun : Bool) (findZone : String → String)
        (recordsRes : String → Except String (List DNSRecord))
        (callErr : CFCall → Option String)
        (oldIngress : List UnvalidatedIngressRule) (changes : Changes),
      (∀ e ∈ changes.Create ++ changes.UpdateNew,
        e.RecordType = "A" → e.Targets ≠ []) →
      CFApplyChanges tunnelId dryRun findZone recordsRes callErr oldIngress
        changes ≠ .panicked) ∧
    CFApplyChanges "t" true (fun _ => "") (fun _ => Except.ok [])
        (fun _ => none) []
        { Create := [epEmptyTargets], UpdateNew := [], UpdateOld := [],
          Delete := [] } = .panicked := by
  constructor
  · intro tunnelId dryRun findZone recordsRes callErr oldIngress changes hT
    have hTC : ∀ e ∈ changes.Create, e.RecordType = "A" → e.Targets ≠ [] :=
      fun e he => hT e (List.mem_append.mpr (Or.inl he))
    have hTU : ∀ e ∈ changes.UpdateNew, e.RecordType = "A" → e.Targets ≠ [] :=
      fun e he => hT e (List.mem_append.mpr (Or.inr he))
    unfold CFApplyChanges
    cases hc : createLoop tunnelId findZone
        (loadIngress (NewOrderedMap oldIngress.length) default oldIngress).1 []
        changes.Create with
    | panicked => exact absurd hc (createLoop_ne_panic tunnelId findZone _ _ _ hTC)
    | err msg => simp [hc]
    | ok pr1 =>
      obtain ⟨m1, dnsCreateParams⟩ := pr1
      simp only [hc]
      cases hu : updateLoop tunnelId findZone recordsRes m1 [] changes.UpdateNew with
      | panicked =>
        exact absurd hu (updateLoop_ne_panic tunnelId findZone recordsRes _ _ _ hTU)
      | err msg => simp [hu]
      | ok pr2 =>
        obtain ⟨m2, dnsUpdateParams⟩ := pr2
        simp only [hu]
        cases hd : deleteLoop findZone recordsRes m2 [] changes.Delete with
        | panicked =>
          exact absurd hd (deleteLoop_ne_panic findZone recordsRes _ _ _)
        | err msg => simp [hd]
        | ok pr3 =>
          obtain ⟨m3, dnsDeleteParams⟩ := pr3
          simp only [hd]
          by_cases hdr : dryRun = true
          · simp [hdr]
          · simp only [hdr, if_false]
            cases callErr (CFCall.updateTunnelConfiguration (m3.Get ++
                [(loadIngress (NewOrderedMap oldIngress.length) default
                  oldIngress).2])) <;> simp
  · rfl

/-- C10 witness: a concrete guarded input on which the universal half of the
statement shows ApplyChanges does not panic. -/
theorem C10_targets_index_unguarded_witness :
    CFApplyChanges "t" true (fun _ => "") (fun _ => Except.ok [])
      (fun _ => none) [] changesCreateA ≠ .panicked :=
  C10_targets_index_unguarded.1 "t" true (fun _ => "") (fun _ => Except.ok [])
    (fun _ => none) [] changesCreateA
    (by
      intro e he
      simp [changesCreateA] at he
      subst he
      intro _
      simp [epA])

/-- ociRecordTTL from src/unnamed/part_000 line 37. -/
def ociRecordTTL : Int := 300

/-- Modelled from the spec: endpoint.TTL.IsConfigured of the external-dns
endpoint package (not under src/): a TTL counts as configured when it is
set to a positive value ("using TTL-or-default"). -/
def isConfiguredTTL (ttl : Int) : Bool :=
  0 < ttl

/-- Modelled from the spec: provider.EnsureTrailingDot (not under src/):
trailing-dot-normalization of a target name, appending a dot unless one is
already there. -/
def ensureTrailingDot (s : String) : String :=
  if s.data.getLast? = some '.' then s else s ++ "."

/-- The operation kind of dns.RecordOperation (add or remove). -/
inductive OCIOpType where
  | add
  | remove
  deriving DecidableEq, Repr

/-- Embedding of dns.RecordOperation restricted to the fields
newRecordOperation sets (the Go field Rtype keeps its name). -/
structure OCIRecordOperation where
  Domain : String
  Rdata : String
  Ttl : Int
  Rtype : String
  Operation : OCIOpType
  deriving DecidableEq, Repr

/-- The TTL newRecordOperation picks: the endpoint's TTL when configured,
the default otherwise (part_000 lines 310-313). -/
def ociTtlOf (ep : Endpoint) : Int :=
  if isConfiguredTTL ep.RecordTTL then ep.RecordTTL else ociRecordTTL

/-- newRecordOperation from part_000 lines 302-322: copy the targets,
trailing-dot-normalize targets[0] when the record type is CNAME (out of
bounds when Targets is empty: none), join with single spaces as rdata. -/
def newRecordOperation (ep : Endpoint) (opType : OCIOpType) :
    Option OCIRecordOperation :=
  if ep.RecordType = "CNAME" then
    match ep.Targets with
    | [] => none
    | t :: ts =>
      some ⟨ep.DNSName, String.intercalate " " (ensureTrailingDot t :: ts),
        ociTtlOf ep, ep.RecordType, opType⟩
  else
    some ⟨ep.DNSName, String.intercalate " " ep.Targets, ociTtlOf ep,
      ep.RecordType, opType⟩

/-- newFilteredRecordOperations from part_000 lines 200-208: one operation
per endpoint passing the domain filter, in order (none propagates the
targets[0] panic). Record-type support is not consulted here. -/
def newFilteredRecordOperations (domainMatch : String → Bool)
    (endpoints : List Endpoint) (opType : OCIOpType) :
    Option (List OCIRecordOperation) :=
  match endpoints with
  | [] => some []
  | e :: rest =>
    if domainMatch e.DNSName then
      match newRecordOperation e opType with
      | none => none
      | some op => (newFilteredRecordOperations domainMatch rest opType).map (op :: .)
    else newFilteredRecordOperations domainMatch rest opType

/-- The operation list OCIProvider.ApplyChanges builds (part_000 lines
257-263): add operations for Create and UpdateNew, remove operations for
UpdateOld and Delete, in that order. -/
def buildOps (domainMatch : String → Bool) (changes : Changes) :
    Option (List OCIRecordOperation) := do
  let a ← newFilteredRecordOperations domainMatch changes.Create .add
  let b ← newFilteredRecordOperations domainMatch changes.UpdateNew .add
  let c ← newFilteredRecordOperations domainMatch changes.UpdateOld .remove
  let d ← newFilteredRecordOperations domainMatch changes.Delete .remove
  pure (a ++ b ++ c ++ d)

/-- Whether suffix is a suffix of s, on the character lists (the Go
strings.HasSuffix). -/
def strHasSuffix (s suffix : String) : Bool :=
  suffix.data == s.data.drop (s.data.length - suffix.data.length)

/-- Modelled from the spec: provider.ZoneIDName.FindZone (not under src/):
the (zone id, zone name) whose name the domain equals or ends with as a
dot-separated suffix, preferring the longest matching name; ("", "") when
no zone matches. Go map iteration order is abstracted as list order. -/
def findZoneName (zones : List (String × String)) (hostname : String) :
    String × String :=
  zones.foldl (fun best z =>
    if hostname = z.2 ∨ strHasSuffix hostname ("." ++ z.2) then
      if best.2 = "" ∨ z.2.length > best.2.length then z else best
    else best) ("", "")

/-- operationsByZone from part_000 lines 325-350: operations grouped by the
zone FindZone resolves for their domain (unresolved operations are dropped
with a warning), zones with no operations removed; Go map iteration order
is abstracted as the zone-list order. -/
def operationsByZone (zones : List (String × String))
    (ops : List OCIRecordOperation) : List (String × List OCIRecordOperation) :=
  (zones.map (fun z =>
    (z.1, ops.filter (fun op =>
      (findZoneName zones op.Domain).1 = z.1 ∧ z.1 ≠ "")))).filter
    (fun pr => !pr.2.isEmpty)

/-- An OCI vendor call issued by ApplyChanges: the zone listing (through the
zones cache) or one per-zone PatchZoneRecords call. -/
inductive OCICall where
  | zonesCall
  | patchCall (zoneID : String) (ops : List OCIRecordOperation)
  deriving DecidableEq, Repr

/-- Result of OCIProvider.ApplyChanges: a Go panic (targets[0] out of
range), or completion with the trace of OCI calls issued and the returned
error (none is a nil return). -/
inductive OCIResult where
  | panicked
  | done (calls : List OCICall) (result : Option String)
  deriving DecidableEq, Repr

/-- The per-zone patch loop of ApplyChanges (part_000 lines 288-296): one
PatchZoneRecords call per zone batch; the first failure returns that error
immediately, leaving earlier patches applied and later zones unpatched. -/
def ociPatchLoop (patchErr : String → Option String) :
    List (String × List OCIRecordOperation) → List OCICall × Option String
  | [] => ([], none)
  | (zoneID, zops) :: rest =>
    match patchErr zoneID with
    | some e => ([.patchCall zoneID zops], some e)
    | none =>
      let r := ociPatchLoop patchErr rest
      (.patchCall zoneID zops :: r.1, r.2)

/-- ApplyChanges of the OCIProvider (part_000 lines 254-299): build the
filtered operations (a CNAME endpoint with no targets panics); with no
operations return nil immediately without any vendor call; otherwise
resolve zones (an error there is returned wrapped), partition by zone, stop
before patching under dry-run, and otherwise patch zone by zone until the
first failure. zonesRes embeds the outcome of the cached zone listing;
patchErr the outcome of PatchZoneRecords per zone id. -/
def OCIApplyChanges (domainMatch : String → Bool)
    (zonesRes : Except String (List (String × String))) (dryRun : Bool)
    (patchErr : String → Option String) (changes : Changes) : OCIResult :=
  match buildOps domainMatch changes with
  | none => .panicked
  | some ops =>
    if ops.isEmpty then .done [] none
    else
      match zonesRes with
      | .error e => .done [.zonesCall] (some ("fetching zones: " ++ e))
      | .ok zones =>
        let opsByZone := operationsByZone zones ops
        if dryRun then .done [.zonesCall] none
        else
          let pr := ociPatchLoop patchErr opsByZone
          .done (.zonesCall :: pr.1) pr.2

theorem ociPatchLoop_fail (patchErr : String → Option String)
    (zoneID : String) (zops : List OCIRecordOperation) (e : String)
    (hfail : patchErr zoneID = some e) :
    ∀ pre : List (String × List OCIRecordOperation),
      (∀ pr ∈ pre, patchErr pr.1 = none) →
      ∀ post : List (String × List OCIRecordOperation),
      ociPatchLoop patchErr (pre ++ (zoneID, zops) :: post) =
        (pre.map (fun pr => OCICall.patchCall pr.1 pr.2) ++
          [OCICall.patchCall zoneID zops], some e) := by
  intro pre
  induction pre with
  | nil =>
    intro h post
    simp [ociPatchLoop, hfail]
  | cons pr rest ih =>
    intro h post
    have hpr := h pr (List.mem_cons_self pr rest)
    obtain ⟨z1, ops1⟩ := pr
    simp only [List.cons_append, ociPatchLoop, hpr]
    simp [ih (fun x hx => h x (List.mem_cons_of_mem _ hx)) post]

/-- C5: once the operations are partitioned by zone, a failing
PatchZoneRecords call on one zone makes ApplyChanges return that error
immediately: the zones before it in the partition were patched (and stay
patched: no rollback call exists in the trace), and no patch call is issued
for the remaining zones. -/
theorem C5_zone_patch_failure_aborts (domainMatch : String → Bool)
    (zones : List (String × String)) (patchErr : String → Option String)
    (changes : Changes) (ops : List OCIRecordOperation)
    (pre post : List (String × List OCIRecordOperation)) (zoneID : String)
    (zops : List OCIRecordOperation) (e : String)
    (hops : buildOps domainMatch changes = some ops)
    (hne : ops.isEmpty = false)
    (hsplit : operationsByZone zones ops = pre ++ (zoneID, zops) :: post)
    (hpre : ∀ pr ∈ pre, patchErr pr.1 = none)
    (hfail : patchErr zoneID = some e) :
    OCIApplyChanges domainMatch (.ok zones) false patchErr changes =
      .done (OCICall.zonesCall ::
        (pre.map (fun pr => OCICall.patchCall pr.1 pr.2) ++
          [OCICall.patchCall zoneID zops])) (some e) := by
  unfold OCIApplyChanges
  simp only [hops, hne, Bool.false_eq_true, if_false]
  rw [hsplit, ociPatchLoop_fail patchErr zoneID zops e hfail pre hpre post]

/-- A concrete A-type endpoint whose domain equals the known zone name. -/
def epOci : Endpoint :=
  { DNSName := "example.com", RecordType := "A", Targets := ["1.2.3.4"],
    RecordTTL := 0 }

/-- Changes with a single create of epOci. -/
def chOci : Changes :=
  { Create := [epOci], UpdateNew := [], UpdateOld := [], Delete := [] }

/-- The record operation epOci maps to. -/
def opOci : OCIRecordOperation :=
  ⟨"example.com", "1.2.3.4", 300, "A", OCIOpType.add⟩

/-- C5 witness: a concrete one-zone run whose patch fails. -/
theorem C5_zone_patch_failure_aborts_witness :
    OCIApplyChanges (fun _ => true) (.ok [("z1", "example.com")]) false
        (fun _ => some "boom") chOci =
      .done [OCICall.zonesCall, OCICall.patchCall "z1" [opOci]] (some "boom") :=
  C5_zone_patch_failure_aborts (fun _ => true) [("z1", "example.com")]
    (fun _ => some "boom") chOci [opOci] [] [] "z1" [opOci] "boom"
    rfl rfl rfl (by simp) rfl

/-- C7 (amended): every endpoint passing the domain filter maps to exactly
one record operation; its rdata is the endpoint's targets joined by a
single space where, for a CNAME endpoint (which must have at least one
target or the Go code panics), only the first target is
trailing-dot-normalized; its TTL is the endpoint's TTL when configured
(positive) and the default 300 otherwise. -/
theorem C7_one_operation_per_filtered_endpoint (domainMatch : String → Bool)
    (opType : OCIOpType) :
    ∀ eps : List Endpoint,
      (∀ e ∈ eps, e.RecordType = "CNAME" → e.Targets ≠ []) →
      newFilteredRecordOperations domainMatch eps opType =
        some ((eps.filter (fun e => domainMatch e.DNSName)).map (fun e =>
          ⟨e.DNSName,
            String.intercalate " "
              (if e.RecordType = "CNAME" then
                ensureTrailingDot (e.Targets.headD "") :: e.Targets.tail
              else e.Targets),
            (if isConfiguredTTL e.RecordTTL then e.RecordTTL else 300),
            e.RecordType, opType⟩)) := by
  intro eps
  induction eps with
  | nil =>
    intro h
    rfl
  | cons e rest ih =>
    intro h
    have he := h e (List.mem_cons_self e rest)
    have hrest : ∀ x ∈ rest, x.RecordType = "CNAME" → x.Targets ≠ [] :=
      fun x hx => h x (List.mem_cons_of_mem e hx)
    by_cases hd : domainMatch e.DNSName = true
    · by_cases hc : e.RecordType = "CNAME"
      · cases hT : e.Targets with
        | nil => exact absurd hT (he hc)
        | cons t ts =>
          simp [newFilteredRecordOperations, hd, hc, hT, newRecordOperation,
            ih hrest, List.filter_cons, ociTtlOf, ociRecordTTL]
      · simp [newFilteredRecordOperations, hd, hc, newRecordOperation,
          ih hrest, List.filter_cons, ociTtlOf, ociRecordTTL]
    · have hd2 : domainMatch e.DNSName = false := by
        cases hdm : domainMatch e.DNSName
        · rfl
        · exact absurd hdm hd
      simp [newFilteredRecordOperations, hd2, ih hrest, List.filter_cons]

/-- A CNAME endpoint with two targets. -/
def epCname2 : Endpoint :=
  { DNSName := "w.example.com", RecordType := "CNAME",
    Targets := ["a.example.com", "b.example.com"], RecordTTL := 0 }

/-- C7 counterexample: on a CNAME endpoint with two targets only the first
target is trailing-dot-normalized, so the operation's rdata differs from
the join of the trailing-dot-normalized targets the claim asserts. -/
theorem C7_counterexample_only_first_target_normalized :
    (newRecordOperation epCname2 OCIOpType.add).map (fun op => op.Rdata) =
      some "a.example.com. b.example.com" ∧
    "a.example.com. b.example.com" ≠
      String.intercalate " " (epCname2.Targets.map ensureTrailingDot) := by
  constructor
  · rfl
  · decide

/-- C7 witness: the amended statement at a concrete CNAME endpoint. -/
theorem C7_one_operation_per_filtered_endpoint_witness :
    newFilteredRecordOperations (fun _ => true) [epCname2] OCIOpType.add =
      some [⟨"w.example.com", "a.example.com. b.example.com", 300, "CNAME",
        OCIOpType.add⟩] :=
  C7_one_operation_per_filtered_endpoint (fun _ => true) OCIOpType.add [epCname2]
    (by
      intro e he
      simp at he
      subst he
      intro _
      simp [epCname2])

theorem newFilteredRecordOperations_all_filtered (domainMatch : String → Bool)
    (opType : OCIOpType) :
    ∀ eps : List Endpoint, (∀ e ∈ eps, domainMatch e.DNSName = false) →
      newFilteredRecordOperations domainMatch eps opType = some [] := by
  intro eps
  induction eps with
  | nil =>
    intro h
    rfl
  | cons e rest ih =>
    intro h
    have he := h e (List.mem_cons_self e rest)
    simp [newFilteredRecordOperations, he]
    exact ih (fun x hx => h x (List.mem_cons_of_mem e hx))

/-- C8 (amended): when the domain filter excludes every endpoint of the
changes (so no record operations result), ApplyChanges returns nil
immediately, issuing neither the zone listing nor any patch call. Record
type support is not consulted by ApplyChanges, so unsupported record types
alone do not prevent operations. -/
theorem C8_all_filtered_returns_nil_without_calls (domainMatch : String → Bool)
    (zonesRes : Except String (List (String × String))) (dryRun : Bool)
    (patchErr : String → Option String) (changes : Changes)
    (hfilter : ∀ e ∈ changes.Create ++ changes.UpdateNew ++ changes.UpdateOld ++
      changes.Delete, domainMatch e.DNSName = false) :
    OCIApplyChanges domainMatch zonesRes dryRun patchErr changes =
      .done [] none := by
  have h1 := newFilteredRecordOperations_all_filtered domainMatch .add
    changes.Create (fun e he => hfilter e (by simp [he]))
  have h2 := newFilteredRecordOperations_all_filtered domainMatch .add
    changes.UpdateNew (fun e he => hfilter e (by simp [he]))
  have h3 := newFilteredRecordOperations_all_filtered domainMatch .remove
    changes.UpdateOld (fun e he => hfilter e (by simp [he]))
  have h4 := newFilteredRecordOperations_all_filtered domainMatch .remove
    changes.Delete (fun e he => hfilter e (by simp [he]))
  unfold OCIApplyChanges buildOps
  rw [h1, h2, h3, h4]
  simp

/-- C8 witness: a concrete changes set fully excluded by the domain
filter. -/
theorem C8_all_filtered_returns_nil_without_calls_witness :
    OCIApplyChanges (fun _ => false) (.ok [("z1", "example.com")]) false
        (fun _ => none) chOci = .done [] none :=
  C8_all_filtered_returns_nil_without_calls (fun _ => false)
    (.ok [("z1", "example.com")]) false (fun _ => none) chOci
    (fun e he => rfl)

/-- An endpoint whose record type is outside any supported record-type
set. -/
def epFake : Endpoint :=
  { DNSName := "example.com", RecordType := "FAKE", Targets := ["x"],
    RecordTTL := 0 }

/-- C8 counterexample: ApplyChanges never consults record-type support:
for the supported-type predicate rejecting everything (so no endpoint's
record type is supported), a domain-filter-matching endpoint of type "FAKE"
still yields an operation and ApplyChanges calls the zone listing and the
patch API instead of returning nil immediately without calls. -/
theorem C8_counterexample_type_support_not_consulted :
    ¬ (∀ supported : String → Bool,
      (∀ e ∈ ([epFake] : List Endpoint), supported e.RecordType = false) →
      OCIApplyChanges (fun _ => true) (Except.ok [("z1", "example.com")]) false
        (fun _ => none)
        { Create := [epFake], UpdateNew := [], UpdateOld := [], Delete := [] } =
        .done [] none) := by
  intro hclaim
  have hinst := hclaim (fun _ => false) (fun e he => rfl)
  have hval : OCIApplyChanges (fun _ => true) (Except.ok [("z1", "example.com")])
      false (fun _ => none)
      { Create := [epFake], UpdateNew := [], UpdateOld := [], Delete := [] } =
      .done [OCICall.zonesCall, OCICall.patchCall "z1"
        [⟨"example.com", "x", 300, "FAKE", OCIOpType.add⟩]] none := by
    rfl
  rw [hval] at hinst
  exact absurd hinst (by decide)
